import Mathlib

/-!
Verification of the date-window / time-series normalization core of the
`alab_ph` heat-index dashboard.

The client and server manipulate calendar dates through the JavaScript
`Date` object, always normalized to local midnight (`setHours(0,0,0,0)`),
and interchange them as `YYYY-MM-DD` strings.  A JS `Date` at midnight is
an integer number of days since the Unix epoch, so the embedding models a
date value as `Int` (days since 1970-01-01) and a `YYYY-MM-DD` string as
the same integer.  The component accessors `getFullYear` / `getMonth` /
`getDate` and the normalizing constructor `new Date(y, monthIndex, day)`
are modelled with a proleptic-Gregorian conversion between day numbers
and civil dates (`fromDays` / `toDays`), proved to be mutually inverse.

Numbers carried in data rows (heat indices, trends) are modelled as `ℚ`;
`x.toFixed(2)` / `Math.round(x*100)/100` on the values arising here are
modelled by `round2` (round half up at two decimals).
-/

namespace AlabPh

/-- Proleptic-Gregorian leap-year test, as implemented by JS `Date`. -/
def isLeap (y : Int) : Bool := y % 4 == 0 && (y % 100 != 0 || y % 400 == 0)

/-- Number of days in month `m` (1-12) of year `y`. -/
def monthLen (y m : Int) : Int :=
  if m = 2 then (if isLeap y then 29 else 28)
  else if m = 4 ∨ m = 6 ∨ m = 9 ∨ m = 11 then 30
  else 31

/-- A valid civil date: month in 1..12, day in 1..month length. -/
def ValidDate (y m d : Int) : Prop :=
  1 ≤ m ∧ m ≤ 12 ∧ 1 ≤ d ∧ d ≤ monthLen y m

/-- A civil (year, month, day) triple; month is 1-based. -/
structure Civil where
  year : Int
  month : Int
  day : Int
deriving DecidableEq, Repr

/-- Days since 1970-01-01 of the civil date `y-m-d`
(months shifted so the year starts in March; floor divisions). -/
def toDays (y m d : Int) : Int :=
  let ys : Int := if m ≤ 2 then y - 1 else y
  let mp : Int := if m ≤ 2 then m + 9 else m - 3
  365 * ys + ys / 4 - ys / 100 + ys / 400 + (153 * mp + 2) / 5 + (d - 1) - 719468

/-- Civil date of a day number (inverse of `toDays`): decompose the day
count into 400-year eras, centuries, 4-year blocks and years, then split
the day-of-year into month and day. -/
def fromDays (z : Int) : Civil :=
  let z' := z + 719468
  let era := z' / 146097
  let doe := z' - 146097 * era
  let c := min 3 (doe / 36524)
  let doc := doe - 36524 * c
  let q := min 24 (doc / 1461)
  let doq := doc - 1461 * q
  let yq := min 3 (doq / 365)
  let doy := doq - 365 * yq
  let yoe := 100 * c + 4 * q + yq
  let mp := (5 * doy + 2) / 153
  let dd := doy - (153 * mp + 2) / 5 + 1
  let m := if mp < 10 then mp + 3 else mp - 9
  ⟨era * 400 + yoe + (if m ≤ 2 then 1 else 0), m, dd⟩

theorem isLeap_iff (y : Int) :
    isLeap y = true ↔ (y % 4 = 0 ∧ (y % 100 ≠ 0 ∨ y % 400 = 0)) := by
  simp only [isLeap, Bool.and_eq_true, beq_iff_eq, Bool.or_eq_true, bne_iff_ne, ne_eq]

/-- Key step of the round trip: `fromDays` recovers the coordinates of a
day number given in decomposed era/century/quad/year/month/day form. -/
theorem fromDays_decomp (E C Q u mp ms dd : Int)
    (hC0 : 0 ≤ C) (hC1 : C ≤ 3) (hQ0 : 0 ≤ Q) (hQ1 : Q ≤ 24)
    (hu0 : 0 ≤ u) (hu1 : u ≤ 3) (hmp0 : 0 ≤ mp) (hmp1 : mp < 12)
    (hms : (153 * mp + 2) / 5 = ms) (hdd0 : 0 ≤ dd)
    (hddlt : dd < (153 * (mp + 1) + 2) / 5 - ms)
    (hfeb : mp = 11 → dd ≤ 27 ∨ (dd = 28 ∧ u = 3 ∧ (Q ≠ 24 ∨ C = 3))) :
    fromDays (146097*E + 36524*C + 1461*Q + 365*u + ms + dd - 719468)
      = ⟨400*E + 100*C + 4*Q + u + (if 10 ≤ mp then 1 else 0),
         if mp < 10 then mp + 3 else mp - 9, dd + 1⟩ := by
  simp only [fromDays]
  rw [show (146097 * E + 36524 * C + 1461 * Q + 365 * u + ms + dd - 719468 + 719468) / 146097 = E
    by omega]
  rw [show min 3 ((146097 * E + 36524 * C + 1461 * Q + 365 * u + ms + dd - 719468 + 719468 -
      146097 * E) / 36524) = C by omega]
  rw [show min 24 ((146097 * E + 36524 * C + 1461 * Q + 365 * u + ms + dd - 719468 + 719468 -
      146097 * E - 36524 * C) / 1461) = Q by omega]
  rw [show min 3 ((146097 * E + 36524 * C + 1461 * Q + 365 * u + ms + dd - 719468 + 719468 -
      146097 * E - 36524 * C - 1461 * Q) / 365) = u by omega]
  rw [show (5 * (146097 * E + 36524 * C + 1461 * Q + 365 * u + ms + dd - 719468 + 719468 -
      146097 * E - 36524 * C - 1461 * Q - 365 * u) + 2) / 153 = mp by omega]
  rw [hms]
  split_ifs <;> (simp only [Civil.mk.injEq]; exact ⟨by omega, by trivial, by omega⟩)

theorem exists_decomp (ys : Int) :
    ∃ E C Q u, ys = 400*E + 100*C + 4*Q + u ∧
      0 ≤ C ∧ C ≤ 3 ∧ 0 ≤ Q ∧ Q ≤ 24 ∧ 0 ≤ u ∧ u ≤ 3 :=
  ⟨ys / 400, ys % 400 / 100, ys % 400 % 100 / 4, ys % 400 % 100 % 4,
    by omega, by omega, by omega, by omega, by omega, by omega, by omega⟩

theorem yearStart_decomp (E C Q u : Int)
    (hC0 : 0 ≤ C) (hC1 : C ≤ 3) (hQ0 : 0 ≤ Q) (hQ1 : Q ≤ 24)
    (hu0 : 0 ≤ u) (hu1 : u ≤ 3) (ys : Int) (h : ys = 400*E + 100*C + 4*Q + u) :
    365 * ys + ys / 4 - ys / 100 + ys / 400
      = 146097*E + 36524*C + 1461*Q + 365*u := by omega

/-- The civil-to-day-number conversion round-trips on every valid date. -/
theorem fromDays_toDays (y m d : Int) (h : ValidDate y m d) :
    fromDays (toDays y m d) = ⟨y, m, d⟩ := by
  obtain ⟨h1, h2, h3, h4⟩ := h
  obtain ⟨E, C, Q, u, hdec, hC0, hC1, hQ0, hQ1, hu0, hu1⟩ :=
    exists_decomp (if m ≤ 2 then y - 1 else y)
  interval_cases m <;> norm_num at hdec <;> norm_num [monthLen] at h4
  case _ =>  -- January
    rw [show toDays y 1 d = 146097*E + 36524*C + 1461*Q + 365*u + 306 + (d - 1) - 719468 by
          unfold toDays
          norm_num
          omega,
        fromDays_decomp E C Q u 10 306 (d-1) hC0 hC1 hQ0 hQ1 hu0 hu1 (by norm_num) (by norm_num)
          (by decide) (by omega) (by omega) (by omega)]
    norm_num [Civil.mk.injEq]
    omega
  case _ =>  -- February
    have hLp := isLeap_iff y
    rcases hLB : isLeap y <;> simp only [hLB, Bool.false_eq_true, false_iff, true_iff,
        not_and, not_or, not_not, if_true, if_false] at hLp h4 <;>
      (rw [show toDays y 2 d = 146097*E + 36524*C + 1461*Q + 365*u + 337 + (d - 1) - 719468 by
            unfold toDays
            simp only [reduceIte]
            omega,
          fromDays_decomp E C Q u 11 337 (d-1) hC0 hC1 hQ0 hQ1 hu0 hu1 (by norm_num) (by norm_num)
            (by decide) (by omega) (by omega) (by omega)]
       norm_num [Civil.mk.injEq]
       omega)
  case _ =>  -- March
    rw [show toDays y 3 d = 146097*E + 36524*C + 1461*Q + 365*u + 0 + (d - 1) - 719468 by
          unfold toDays
          norm_num
          omega,
        fromDays_decomp E C Q u 0 0 (d-1) hC0 hC1 hQ0 hQ1 hu0 hu1 (by norm_num) (by norm_num)
          (by decide) (by omega) (by omega) (by omega)]
    norm_num [Civil.mk.injEq]
    omega
  case _ =>  -- April
    rw [show toDays y 4 d = 146097*E + 36524*C + 1461*Q + 365*u + 31 + (d - 1) - 719468 by
          unfold toDays
          norm_num
          omega,
        fromDays_decomp E C Q u 1 31 (d-1) hC0 hC1 hQ0 hQ1 hu0 hu1 (by norm_num) (by norm_num)
          (by decide) (by omega) (by omega) (by omega)]
    norm_num [Civil.mk.injEq]
    omega
  case _ =>  -- May
    rw [show toDays y 5 d = 146097*E + 36524*C + 1461*Q + 365*u + 61 + (d - 1) - 719468 by
          unfold toDays
          norm_num
          omega,
        fromDays_decomp E C Q u 2 61 (d-1) hC0 hC1 hQ0 hQ1 hu0 hu1 (by norm_num) (by norm_num)
          (by decide) (by omega) (by omega) (by omega)]
    norm_num [Civil.mk.injEq]
    omega
  case _ =>  -- June
    rw [show toDays y 6 d = 146097*E + 36524*C + 1461*Q + 365*u + 92 + (d - 1) - 719468 by
          unfold toDays
          norm_num
          omega,
        fromDays_decomp E C Q u 3 92 (d-1) hC0 hC1 hQ0 hQ1 hu0 hu1 (by norm_num) (by norm_num)
          (by decide) (by omega) (by omega) (by omega)]
    norm_num [Civil.mk.injEq]
    omega
  case _ =>  -- July
    rw [show toDays y 7 d = 146097*E + 36524*C + 1461*Q + 365*u + 122 + (d - 1) - 719468 by
          unfold toDays
          norm_num
          omega,
        fromDays_decomp E C Q u 4 122 (d-1) hC0 hC1 hQ0 hQ1 hu0 hu1 (by norm_num) (by norm_num)
          (by decide) (by omega) (by omega) (by omega)]
    norm_num [Civil.mk.injEq]
    omega
  case _ =>  -- August
    rw [show toDays y 8 d = 146097*E + 36524*C + 1461*Q + 365*u + 153 + (d - 1) - 719468 by
          unfold toDays
          norm_num
          omega,
        fromDays_decomp E C Q u 5 153 (d-1) hC0 hC1 hQ0 hQ1 hu0 hu1 (by norm_num) (by norm_num)
          (by decide) (by omega) (by omega) (by omega)]
    norm_num [Civil.mk.injEq]
    omega
  case _ =>  -- September
    rw [show toDays y 9 d = 146097*E + 36524*C + 1461*Q + 365*u + 184 + (d - 1) - 719468 by
          unfold toDays
          norm_num
          omega,
        fromDays_decomp E C Q u 6 184 (d-1) hC0 hC1 hQ0 hQ1 hu0 hu1 (by norm_num) (by norm_num)
          (by decide) (by omega) (by omega) (by omega)]
    norm_num [Civil.mk.injEq]
    omega
  case _ =>  -- October
    rw [show toDays y 10 d = 146097*E + 36524*C + 1461*Q + 365*u + 214 + (d - 1) - 719468 by
          unfold toDays
          norm_num
          omega,
        fromDays_decomp E C Q u 7 214 (d-1) hC0 hC1 hQ0 hQ1 hu0 hu1 (by norm_num) (by norm_num)
          (by decide) (by omega) (by omega) (by omega)]
    norm_num [Civil.mk.injEq]
    omega
  case _ =>  -- November
    rw [show toDays y 11 d = 146097*E + 36524*C + 1461*Q + 365*u + 245 + (d - 1) - 719468 by
          unfold toDays
          norm_num
          omega,
        fromDays_decomp E C Q u 8 245 (d-1) hC0 hC1 hQ0 hQ1 hu0 hu1 (by norm_num) (by norm_num)
          (by decide) (by omega) (by omega) (by omega)]
    norm_num [Civil.mk.injEq]
    omega
  case _ =>  -- December
    rw [show toDays y 12 d = 146097*E + 36524*C + 1461*Q + 365*u + 275 + (d - 1) - 719468 by
          unfold toDays
          norm_num
          omega,
        fromDays_decomp E C Q u 9 275 (d-1) hC0 hC1 hQ0 hQ1 hu0 hu1 (by norm_num) (by norm_num)
          (by decide) (by omega) (by omega) (by omega)]
    norm_num [Civil.mk.injEq]
    omega

/-! ### JS `Date` accessors on midnight-normalized dates

A midnight JS `Date` is its day number.  `getFullYear`/`getMonth`
(0-based)/`getDate` read civil components; `setDate n` moves the time by
`(n - getDate) ` days, which is exactly how JS normalizes out-of-range
day-of-month values; `mkDate y mIdx day` models `new Date(y, mIdx, day)`
including month-index and day normalization. -/

def getFullYear (t : Int) : Int := (fromDays t).year

def getMonth (t : Int) : Int := (fromDays t).month - 1

def getDate (t : Int) : Int := (fromDays t).day

def setDate (t n : Int) : Int := t + (n - getDate t)

def mkDate (y monthIndex day : Int) : Int :=
  toDays (y + monthIndex / 12) (monthIndex % 12 + 1) 1 + (day - 1)

theorem getFullYear_toDays (y m d : Int) (h : ValidDate y m d) :
    getFullYear (toDays y m d) = y := by
  unfold getFullYear
  rw [fromDays_toDays y m d h]

theorem getMonth_toDays (y m d : Int) (h : ValidDate y m d) :
    getMonth (toDays y m d) = m - 1 := by
  unfold getMonth
  rw [fromDays_toDays y m d h]

theorem getDate_toDays (y m d : Int) (h : ValidDate y m d) :
    getDate (toDays y m d) = d := by
  unfold getDate
  rw [fromDays_toDays y m d h]

/-- The day after the last day of a month is the first day of the next
month (in the normalized form produced by `mkDate`). -/
theorem toDays_next_month (y m : Int) (h1 : 1 ≤ m) (h2 : m ≤ 12) :
    toDays (y + m / 12) (m % 12 + 1) 1 = toDays y m (monthLen y m) + 1 := by
  have hLp := isLeap_iff y
  interval_cases m
  case _ =>
    unfold monthLen toDays
    norm_num
    omega
  case _ =>  -- February needs the leap-year case split
    rcases hLB : isLeap y <;>
      simp only [hLB, Bool.false_eq_true, false_iff, true_iff,
        not_and, not_or, not_not] at hLp <;>
      (unfold monthLen toDays; norm_num [hLB]; omega)
  all_goals (unfold monthLen toDays; norm_num; omega)

/-!
### `getISOWeekRange` — rolling 7-day window
Embedded from `src/client/app/utils/dateFormatter.ts` (the final drafts,
whose doc comment reads "Get rolling 7-day range (6 days before selected
date + selected date)"); the same code backs the server's week windows.
`toISOString().split('T')[0]` renders a midnight date back to its
`YYYY-MM-DD` string, i.e. the identity in this model.

```ts
export function getISOWeekRange(dateStr: string): { startDate: string; endDate: string } {
  const date = new Date(dateStr);
  const startOfWeek = new Date(date);
  startOfWeek.setDate(date.getDate() - 6);
  const endOfWeek = new Date(date);
  return { startDate: ..., endDate: ... };
}
```
-/

def getISOWeekRange (t : Int) : Int × Int := (setDate t (getDate t - 6), t)

/-!
### Month window resolution
Embedded from the `Month` branches of `src/server/src/routes/homeData.ts`
(`/forecast-error`, `/nationwide-trend`) and the shared
`getDateRangeCondition` helper:

```ts
const startOfMonth = new Date(selectedDate.getFullYear(), selectedDate.getMonth(), 1);
const endOfMonth = new Date(selectedDate.getFullYear(), selectedDate.getMonth() + 1, 0);
```
-/

def monthRange (t : Int) : Int × Int :=
  (mkDate (getFullYear t) (getMonth t) 1, mkDate (getFullYear t) (getMonth t + 1) 0)

/-- C2: for every reference date, `getISOWeekRange` (the documented week
resolver) returns the inclusive rolling 7-day range `[d - 6 days, d]`,
also across month/year boundaries: for 2024-03-02 the start is
2024-02-25 (through the 2024 leap February). -/
theorem getISOWeekRange_rolling (t : Int) :
    getISOWeekRange t = (t - 6, t) ∧
    getISOWeekRange (toDays 2024 3 2) = (toDays 2024 2 25, toDays 2024 3 2) := by
  have h : ∀ s : Int, getISOWeekRange s = (s - 6, s) := by
    intro s
    unfold getISOWeekRange setDate
    have hc : s + (getDate s - 6 - getDate s) = s - 6 := by omega
    rw [hc]
  refine ⟨h t, ?_⟩
  rw [h (toDays 2024 3 2)]
  decide

/-- C3: for every valid reference date, the `Month` window resolution
returns the first and the last day of the reference date's calendar
month; the window length is the month length, which is correct for
28/29/30/31-day months including February 29 in leap years
(2024-02-29 exists, 2023-02-29 does not). -/
theorem monthRange_resolves (y m d : Int) (h : ValidDate y m d) :
    monthRange (toDays y m d) = (toDays y m 1, toDays y m (monthLen y m)) ∧
    toDays y m (monthLen y m) - toDays y m 1 + 1 = monthLen y m ∧
    ValidDate y m (monthLen y m) ∧
    monthLen 2024 2 = 29 ∧ monthLen 2023 2 = 28 := by
  obtain ⟨h1, h2, h3, h4⟩ := h
  refine ⟨?_, by simp only [toDays]; omega, ?_, by decide, by decide⟩
  · unfold monthRange
    rw [getFullYear_toDays y m d ⟨h1, h2, h3, h4⟩, getMonth_toDays y m d ⟨h1, h2, h3, h4⟩]
    unfold mkDate
    rw [show y + (m - 1) / 12 = y by omega, show (m - 1) % 12 + 1 = m by omega,
        show m - 1 + 1 = m by omega, toDays_next_month y m h1 h2]
    simp only [Prod.mk.injEq]
    omega
  · refine ⟨h1, h2, ?_, le_refl _⟩
    have : (0:Int) < monthLen y m := by
      unfold monthLen
      split_ifs <;> omega
    omega

/-!
### Time-series normalizer — `getTrendSeries`
Embedded from `src/client/app/utils/dateFormatter.ts`.  The repository
carries several drafts of this function; the window-building draft
(`Week` densifies a rolling 7-day window from a date-keyed `Map`,
`Month` filters rows to the reference month) is embedded as
`getTrendSeries`, and the later draft that relies on backend filtering
and excludes March 1 is embedded as `getTrendSeriesV2`.

A raw row `{ date, [key]: number | null }` is `Row`: a date plus an
association list of named metric fields, a field being `none` when it
holds `null`/is absent (both are sent to `0` by `d[key] ?? 0`).
-/

structure Row where
  date : Int
  vals : List (String × Option ℚ)
deriving DecidableEq

/-- `d[key] ?? 0`: the value of field `key`, with `null`/absent as 0. -/
def getVal (r : Row) (k : String) : ℚ :=
  match r.vals.lookup k with
  | some (some v) => v
  | _ => 0

/-- Lookup in the JS `Map` built by `new Map(trendData.map(d => [dateKey d, d]))`:
for duplicate keys, the last row wins. -/
def mapGet (rows : List Row) (t : Int) : Option Row :=
  rows.foldl (fun acc r => if r.date = t then some r else acc) none

inductive Period
  | week
  | month
deriving DecidableEq

/-- A chart point `{ date, [key]: number }`. -/
structure Entry where
  date : Int
  vals : List (String × ℚ)
deriving DecidableEq

/-- `getTrendSeries` (window-building draft): empty input gives `[]`;
`Week` iterates the 7 days from `selected - 6` to `selected`, taking the
mapped row's values (`?? 0`) for days up to `selected` and `0` beyond;
`Month` keeps the rows of the reference month, zeroing rows after
`selected` and copying (`?? 0`) the rest. -/
def getTrendSeries (selected : Int) (period : Period) (trendData : List Row)
    (keys : List String) : List Entry :=
  if trendData.isEmpty then []
  else
    match period with
    | .week =>
        let start := setDate selected (getDate selected - 6)
        (List.range 7).map (fun (i : Nat) =>
          let t : Int := start + (i : Int)
          match mapGet trendData t with
          | some r => ⟨t, keys.map (fun k => (k, if t > selected then 0 else getVal r k))⟩
          | none => ⟨t, keys.map (fun k => (k, if t > selected then 0 else 0))⟩)
    | .month =>
        (trendData.filter (fun r => getFullYear r.date == getFullYear selected &&
            getMonth r.date == getMonth selected)).map (fun r =>
          if r.date > selected then ⟨r.date, keys.map (fun k => (k, 0))⟩
          else ⟨r.date, keys.map (fun k => (k, getVal r k))⟩)

/-- A chart point of the later draft: `{ day, date, [key]: number }`
with `day` the day-of-month. -/
structure EntryD where
  day : Int
  date : Int
  vals : List (String × ℚ)
deriving DecidableEq

/-- Predicate of the draft's March filter: the row is dated March 1 of
the reference year. -/
def isMarchFirst (selYear t : Int) : Bool :=
  getDate t == 1 && getMonth t == 2 && getFullYear t == selYear

/-- `getTrendSeries` (later draft): the backend already filters the
range; each row becomes a `{day, date, ...}` point, values zeroed after
`selected`; when `selected` falls in March, points dated March 1 of the
same year are removed. -/
def getTrendSeriesV2 (selected : Int) (trendData : List Row)
    (keys : List String) : List EntryD :=
  if trendData.isEmpty then []
  else
    let result := trendData.map (fun r =>
      if r.date > selected then ⟨getDate r.date, r.date, keys.map (fun k => (k, 0))⟩
      else ⟨getDate r.date, r.date, keys.map (fun k => (k, getVal r k))⟩)
    if getMonth selected = 2 then
      result.filter (fun e => !(isMarchFirst (getFullYear selected) e.date))
    else result

/-- The `day` field of a forecast-error row: a date string or a
day-of-month number. -/
inductive DayField
  | str (s : Int)
  | num (n : Int)
deriving DecidableEq

/-- A forecast-error row `{ day, date?, [key]: number }`; `vals` holds
the numeric fields other than `day`. -/
structure ErrRow where
  date : Option Int
  day : DayField
  vals : List (String × ℚ)
deriving DecidableEq

/-- The date the later draft derives for a row: the `date` field if
present, else a string `day` parsed as a date, else the numeric `day`
set into the selected date's month. -/
def errRowDate (selected : Int) (r : ErrRow) : Int :=
  match r.date with
  | some t => t
  | none =>
      match r.day with
      | .str s => s
      | .num n => setDate selected n

/-- The date the March filter of the later draft derives: the `date`
field if present, else only a numeric `day`; `none` for a string `day`
(such rows are always kept). -/
def errFilterDate (selected : Int) (r : ErrRow) : Option Int :=
  match r.date with
  | some t => some t
  | none =>
      match r.day with
      | .num n => some (setDate selected n)
      | .str _ => none

/-- `getForecastErrorSeries` (later draft): zero the numeric fields of
rows dated after `selected`; when `selected` falls in March, remove rows
whose derived date is March 1 of the same year. -/
def getForecastErrorSeries (selected : Int) (errorData : List ErrRow) : List ErrRow :=
  let result := errorData.map (fun r =>
    if errRowDate selected r > selected then
      { r with vals := r.vals.map (fun kv => (kv.1, (0:ℚ))) }
    else r)
  if getMonth selected = 2 then
    result.filter (fun r =>
      match errFilterDate selected r with
      | some t => !(isMarchFirst (getFullYear selected) t)
      | none => true)
  else result

theorem setDate_getDate_sub (s k : Int) : setDate s (getDate s - k) = s - k := by
  unfold setDate
  omega

/-- C1 (counterexample): the output length of `getTrendSeries` does not
always equal the number of days of the window: with no rows the result
is empty (length 0, not 7), and for a March 2024 month window holding a
single row the result has a single point (not 31). -/
theorem getTrendSeries_length_cex :
    ¬ (getTrendSeries (toDays 2024 3 10) Period.week [] ["temp"]).length = 7 ∧
    ¬ (getTrendSeries (toDays 2024 3 10) Period.month
        [⟨toDays 2024 3 5, [("temp", some 30)]⟩] ["temp"]).length = 31 := by
  constructor
  · decide
  · decide

/-- C1 (amended): with a non-empty row list a week window always yields
exactly 7 points, but an empty row list yields the empty series, and a
month window yields one point per input row dated in the reference
month (not one per day of the month). -/
theorem getTrendSeries_length (selected : Int) (trendData : List Row)
    (keys : List String) :
    (getTrendSeries selected Period.week trendData keys).length
      = (if trendData.isEmpty then 0 else 7) ∧
    (getTrendSeries selected Period.month trendData keys).length
      = (if trendData.isEmpty then 0 else
          (trendData.filter (fun r => getFullYear r.date == getFullYear selected &&
            getMonth r.date == getMonth selected)).length) := by
  unfold getTrendSeries
  rcases h : trendData.isEmpty
  · simp only [h, Bool.false_eq_true, if_false]
    constructor
    · rw [List.length_map, List.length_range]
    · rw [List.length_map]
  · simp only [h, if_true]
    exact ⟨rfl, rfl⟩

/-- C4: every point of the normalizer's output dated strictly after the
reference date carries the value 0 for every requested metric key, in
both the week and the month window. -/
theorem getTrendSeries_future_zero (selected : Int) (period : Period)
    (trendData : List Row) (keys : List String) (e : Entry)
    (he : e ∈ getTrendSeries selected period trendData keys)
    (hgt : e.date > selected) :
    e.vals = keys.map (fun k => (k, 0)) := by
  unfold getTrendSeries at he
  rcases hemp : trendData.isEmpty
  · rw [hemp] at he
    simp only [Bool.false_eq_true, if_false] at he
    cases period
    case week =>
      rw [List.mem_map] at he
      obtain ⟨i, hir, hei⟩ := he
      subst hei
      cases hm : mapGet trendData (setDate selected (getDate selected - 6) + i) <;>
        simp only [hm] at hgt ⊢ <;> simp only [gt_iff_lt] at hgt <;> simp [hgt]
    case month =>
      rw [List.mem_map] at he
      obtain ⟨r, hr, hei⟩ := he
      subst hei
      by_cases hrd : r.date > selected
      · rw [if_pos hrd]
      · rw [if_neg hrd] at hgt
        exact absurd hgt hrd
  · simp [hemp] at he

theorem mapGet_foldl_acc (t : Int) (rows : List Row) (acc : Option Row)
    (h : ∀ r ∈ rows, r.date ≠ t) :
    rows.foldl (fun acc r => if r.date = t then some r else acc) acc = acc := by
  induction rows generalizing acc with
  | nil => rfl
  | cons x xs ih =>
      rw [List.foldl_cons, if_neg (h x (List.mem_cons_self x xs))]
      exact ih acc (fun r hr => h r (List.mem_cons_of_mem _ hr))

theorem mapGet_eq_none (t : Int) (rows : List Row)
    (h : ∀ r ∈ rows, r.date ≠ t) : mapGet rows t = none :=
  mapGet_foldl_acc t rows none h

theorem mapGet_foldl_eq_some (t : Int) (r : Row) :
    ∀ rows : List Row, r ∈ rows → r.date = t →
      (∀ r' ∈ rows, r'.date = t → r' = r) → ∀ acc : Option Row,
      rows.foldl (fun acc r => if r.date = t then some r else acc) acc = some r := by
  intro rows
  induction rows with
  | nil => intro hr; exact absurd hr (List.not_mem_nil r)
  | cons x xs ih =>
      intro hr hdate huniq acc
      rw [List.foldl_cons]
      by_cases hx : r ∈ xs
      · exact ih hx hdate (fun r' h' hd => huniq r' (List.mem_cons_of_mem _ h') hd) _
      · have hrx : r = x := by
          rcases List.mem_cons.mp hr with h | h
          · exact h
          · exact absurd h hx
        subst hrx
        rw [if_pos hdate]
        exact mapGet_foldl_acc t xs (some r)
          (fun r' h' hd => absurd ((huniq r' (List.mem_cons_of_mem _ h') hd) ▸ h') hx)

theorem mapGet_eq_some (t : Int) (r : Row) (rows : List Row)
    (hr : r ∈ rows) (hdate : r.date = t)
    (huniq : ∀ r' ∈ rows, r'.date = t → r' = r) :
    mapGet rows t = some r :=
  mapGet_foldl_eq_some t r rows hr hdate huniq none

/-- Membership of a calendar day in a resolved window: a week window is
the rolling range `[selected - 6, selected]`; a month window holds the
days in the same calendar month as the reference date. -/
def inWindow (selected : Int) : Period → Int → Prop
  | .week, t => selected - 6 ≤ t ∧ t ≤ selected
  | .month, t => getFullYear t = getFullYear selected ∧ getMonth t = getMonth selected

/-- C5: for a day of the window on or before the reference date (row
dates distinct): a point emitted for that day copies each requested key
from the matching row with `null`/absent defaulted to 0; with no
matching row an emitted point is all-zero; and in a week window with
non-empty input a point for that day is always emitted. -/
theorem getTrendSeries_copies (selected : Int) (period : Period)
    (trendData : List Row) (keys : List String) (t : Int)
    (hnodup : (trendData.map Row.date).Nodup)
    (hwin : inWindow selected period t) (hle : t ≤ selected) :
    (∀ r ∈ trendData, r.date = t →
      ∀ e ∈ getTrendSeries selected period trendData keys, e.date = t →
        e.vals = keys.map (fun k => (k, getVal r k))) ∧
    ((∀ r ∈ trendData, r.date ≠ t) →
      ∀ e ∈ getTrendSeries selected period trendData keys, e.date = t →
        e.vals = keys.map (fun k => (k, 0))) ∧
    (period = Period.week → trendData ≠ [] →
      ∃ e ∈ getTrendSeries selected period trendData keys, e.date = t) := by
  have huniq : ∀ r ∈ trendData, ∀ r' ∈ trendData, r'.date = r.date → r' = r :=
    fun r hr r' hr' hd => List.inj_on_of_nodup_map hnodup hr' hr hd
  have hngt : ¬ (t > selected) := not_lt.mpr hle
  refine ⟨?_, ?_, ?_⟩
  · intro r hr hrd e he hed
    unfold getTrendSeries at he
    rcases hemp : trendData.isEmpty
    · rw [hemp] at he
      simp only [Bool.false_eq_true, if_false] at he
      cases period
      case week =>
        rw [List.mem_map] at he
        obtain ⟨i, hi, hei⟩ := he
        subst hei
        cases hm : mapGet trendData (setDate selected (getDate selected - 6) + (i : Int)) <;>
          simp only [hm] at hed ⊢
        · rw [hed] at hm
          rw [mapGet_eq_some t r trendData hr hrd
            (fun r' h' hd => huniq r hr r' h' (hrd ▸ hd))] at hm
          exact absurd hm (by simp)
        case some r0 =>
          rw [hed] at hm
          rw [mapGet_eq_some t r trendData hr hrd
            (fun r' h' hd => huniq r hr r' h' (hrd ▸ hd))] at hm
          have hr0 : r0 = r := by injection hm.symm
          subst hr0
          rw [hed]
          simp [hngt]
      case month =>
        rw [List.mem_map] at he
        obtain ⟨r', hr', hei⟩ := he
        have hr'mem : r' ∈ trendData := List.mem_of_mem_filter hr'
        by_cases hrd' : r'.date > selected
        · rw [if_pos hrd'] at hei
          rw [← hei] at hed
          simp only at hed
          rw [hed] at hrd'
          exact absurd hrd' hngt
        · rw [if_neg hrd'] at hei
          rw [← hei] at hed ⊢
          simp only at hed ⊢
          have : r' = r := huniq r hr r' hr'mem (by rw [hed, hrd])
          rw [this]
    · rw [List.isEmpty_iff] at hemp
      rw [hemp] at hr
      exact absurd hr (List.not_mem_nil r)
  · intro hno e he hed
    unfold getTrendSeries at he
    rcases hemp : trendData.isEmpty
    · rw [hemp] at he
      simp only [Bool.false_eq_true, if_false] at he
      cases period
      case week =>
        rw [List.mem_map] at he
        obtain ⟨i, hi, hei⟩ := he
        subst hei
        cases hm : mapGet trendData (setDate selected (getDate selected - 6) + (i : Int)) <;>
          simp only [hm] at hed ⊢
        · simp
        case some r0 =>
          rw [hed] at hm
          rw [mapGet_eq_none t trendData hno] at hm
          exact absurd hm (by simp)
      case month =>
        rw [List.mem_map] at he
        obtain ⟨r', hr', hei⟩ := he
        have hr'mem : r' ∈ trendData := List.mem_of_mem_filter hr'
        have hne : r'.date ≠ t := hno r' hr'mem
        by_cases hrd' : r'.date > selected <;>
          [rw [if_pos hrd'] at hei; rw [if_neg hrd'] at hei] <;>
          rw [← hei] at hed <;> simp only at hed <;> exact absurd hed hne
    · rw [hemp] at he
      simp only [if_true] at he
      exact absurd he (List.not_mem_nil e)
  · intro hper hne
    subst hper
    obtain ⟨hw1, hw2⟩ := hwin
    have hemp : trendData.isEmpty = false := by
      cases trendData
      · exact absurd rfl hne
      · rfl
    unfold getTrendSeries
    rw [hemp]
    simp only [Bool.false_eq_true, if_false]
    have hi : (t - (selected - 6)).toNat ∈ List.range 7 :=
      List.mem_range.mpr (by omega)
    refine ⟨_, List.mem_map_of_mem _ hi, ?_⟩
    cases hm : mapGet trendData
        (setDate selected (getDate selected - 6) + ((t - (selected - 6)).toNat : Int)) <;>
      simp only [hm] <;> rw [setDate_getDate_sub] <;> omega

theorem length_filter_map_date (g : Row → EntryD) (p : Int → Bool)
    (hg : ∀ r, (g r).date = r.date) :
    ∀ rows : List Row,
      ((rows.map g).filter (fun e => p e.date)).length
        = (rows.filter (fun r => p r.date)).length := by
  intro rows
  induction rows with
  | nil => rfl
  | cons x xs ih =>
      rw [List.map_cons, List.filter_cons, List.filter_cons, hg]
      cases p x.date
      · simpa using ih
      · simpa using ih

/-- C10: when the reference date falls in March, `getTrendSeriesV2`
emits no point dated March 1 of the reference year — its output length
is the number of input rows not dated March 1 — and every row kept by
`getForecastErrorSeries` has a derived date other than March 1 of the
reference year. -/
theorem march_first_excluded (selected : Int) (trendData : List Row)
    (errorData : List ErrRow) (keys : List String)
    (hmar : getMonth selected = 2) :
    (∀ e ∈ getTrendSeriesV2 selected trendData keys,
      isMarchFirst (getFullYear selected) e.date = false) ∧
    ((getTrendSeriesV2 selected trendData keys).length
      = (trendData.filter
          (fun r => !(isMarchFirst (getFullYear selected) r.date))).length
      ∨ trendData = []) ∧
    (∀ r ∈ getForecastErrorSeries selected errorData,
      ∀ t, errFilterDate selected r = some t →
        isMarchFirst (getFullYear selected) t = false) := by
  refine ⟨?_, ?_, ?_⟩
  · intro e he
    unfold getTrendSeriesV2 at he
    rcases hemp : trendData.isEmpty
    · rw [hemp] at he
      simp only [Bool.false_eq_true, if_false, if_pos hmar] at he
      rw [List.mem_filter] at he
      have := he.2
      rwa [Bool.not_eq_eq_eq_not, Bool.not_true] at this
    · rw [hemp] at he
      simp only [if_true] at he
      exact absurd he (List.not_mem_nil e)
  · rcases hemp : trendData.isEmpty
    · left
      unfold getTrendSeriesV2
      rw [hemp]
      simp only [Bool.false_eq_true, if_false, if_pos hmar]
      exact length_filter_map_date
        (fun r =>
          if r.date > selected then ⟨getDate r.date, r.date, keys.map (fun k => (k, 0))⟩
          else ⟨getDate r.date, r.date, keys.map (fun k => (k, getVal r k))⟩)
        (fun d => !(isMarchFirst (getFullYear selected) d))
        (fun r => by
          dsimp only
          by_cases h : r.date > selected
          · rw [if_pos h]
          · rw [if_neg h]) trendData
    · right
      exact List.isEmpty_iff.mp hemp
  · intro r hr t hft
    unfold getForecastErrorSeries at hr
    rw [if_pos hmar, List.mem_filter] at hr
    have := hr.2
    rw [hft] at this
    rwa [Bool.not_eq_eq_eq_not, Bool.not_true] at this

theorem monthRange_resolves_witness :
    ValidDate 2024 2 29 ∧
    (monthRange (toDays 2024 2 29) = (toDays 2024 2 1, toDays 2024 2 (monthLen 2024 2)) ∧
     toDays 2024 2 (monthLen 2024 2) - toDays 2024 2 1 + 1 = monthLen 2024 2 ∧
     ValidDate 2024 2 (monthLen 2024 2) ∧
     monthLen 2024 2 = 29 ∧ monthLen 2023 2 = 28) :=
  ⟨⟨by decide, by decide, by decide, by decide⟩,
   monthRange_resolves 2024 2 29 ⟨by decide, by decide, by decide, by decide⟩⟩

theorem getTrendSeries_future_zero_witness :
    (⟨toDays 2024 3 20, [("temp", 0)]⟩ : Entry) ∈
        getTrendSeries (toDays 2024 3 10) Period.month
          [⟨toDays 2024 3 20, [("temp", some 35)]⟩] ["temp"] ∧
    (⟨toDays 2024 3 20, [("temp", 0)]⟩ : Entry).date > toDays 2024 3 10 ∧
    (⟨toDays 2024 3 20, [("temp", 0)]⟩ : Entry).vals = ["temp"].map (fun k => (k, 0)) :=
  ⟨by decide, by decide,
   getTrendSeries_future_zero (toDays 2024 3 10) Period.month
     [⟨toDays 2024 3 20, [("temp", some 35)]⟩] ["temp"]
     ⟨toDays 2024 3 20, [("temp", 0)]⟩ (by decide) (by decide)⟩

theorem getTrendSeries_copies_witness :
    (([⟨toDays 2024 3 8, [("temp", some 31)]⟩] : List Row).map Row.date).Nodup ∧
    inWindow (toDays 2024 3 10) Period.week (toDays 2024 3 8) ∧
    toDays 2024 3 8 ≤ toDays 2024 3 10 ∧
    ((∀ r ∈ ([⟨toDays 2024 3 8, [("temp", some 31)]⟩] : List Row), r.date = toDays 2024 3 8 →
        ∀ e ∈ getTrendSeries (toDays 2024 3 10) Period.week
            [⟨toDays 2024 3 8, [("temp", some 31)]⟩] ["temp"], e.date = toDays 2024 3 8 →
          e.vals = ["temp"].map (fun k => (k, getVal r k))) ∧
     ((∀ r ∈ ([⟨toDays 2024 3 8, [("temp", some 31)]⟩] : List Row), r.date ≠ toDays 2024 3 8) →
        ∀ e ∈ getTrendSeries (toDays 2024 3 10) Period.week
            [⟨toDays 2024 3 8, [("temp", some 31)]⟩] ["temp"], e.date = toDays 2024 3 8 →
          e.vals = ["temp"].map (fun k => (k, 0))) ∧
     (Period.week = Period.week → ([⟨toDays 2024 3 8, [("temp", some 31)]⟩] : List Row) ≠ [] →
        ∃ e ∈ getTrendSeries (toDays 2024 3 10) Period.week
            [⟨toDays 2024 3 8, [("temp", some 31)]⟩] ["temp"], e.date = toDays 2024 3 8)) :=
  ⟨by decide, ⟨by decide, by decide⟩, by decide,
   getTrendSeries_copies (toDays 2024 3 10) Period.week
     [⟨toDays 2024 3 8, [("temp", some 31)]⟩] ["temp"] (toDays 2024 3 8)
     (by decide) ⟨by decide, by decide⟩ (by decide)⟩

/-- 31 daily rows covering March 2024, used to exercise the March filter. -/
def march2024 : List Row :=
  (List.range 31).map (fun (i : Nat) => ⟨toDays 2024 3 1 + (i : Int), [("observed", some 30)]⟩)

theorem march_first_excluded_witness :
    getMonth (toDays 2024 3 15) = 2 ∧
    ((∀ e ∈ getTrendSeriesV2 (toDays 2024 3 15) march2024 ["observed"],
        isMarchFirst (getFullYear (toDays 2024 3 15)) e.date = false) ∧
     ((getTrendSeriesV2 (toDays 2024 3 15) march2024 ["observed"]).length
        = (march2024.filter
            (fun r => !(isMarchFirst (getFullYear (toDays 2024 3 15)) r.date))).length
        ∨ march2024 = []) ∧
     (∀ r ∈ getForecastErrorSeries (toDays 2024 3 15)
          [⟨none, DayField.num 1, [("t_plus_one", 2)]⟩],
        ∀ t, errFilterDate (toDays 2024 3 15) r = some t →
          isMarchFirst (getFullYear (toDays 2024 3 15)) t = false)) ∧
    march2024.length = 31 ∧
    (getTrendSeriesV2 (toDays 2024 3 15) march2024 ["observed"]).length = 30 :=
  ⟨by decide,
   march_first_excluded (toDays 2024 3 15) march2024
     [⟨none, DayField.num 1, [("t_plus_one", 2)]⟩] ["observed"] (by decide),
   by decide, by decide⟩

/-!
### Aggregation helpers — `/home-summary` station summary
Embedded from the `/home-summary` handler (`src/unnamed/part_008`, the
draft whose summary carries exactly the eight documented fields):

```ts
let summary = { max: 0, max_station: "", min: 0, min_station: "", avg: 0,
  danger_count: 0, fastest_increasing_station: "", fastest_increasing_trend: 0 };
if (stations.length > 0) {
  const forecasts = stations.map(s => Number(s.forecasted));
  const max = Number(Math.max(...forecasts).toFixed(2));
  const min = Number(Math.min(...forecasts).toFixed(2));
  const avg = Number((forecasts.reduce((a, b) => a + b, 0) / forecasts.length).toFixed(2));
  const danger_count = stations.filter(s => Number(s.forecasted) >= 41).length;
  const maxStation = stations.reduce((prev, curr) => Number(curr.forecasted) > Number(prev.forecasted) ? curr : prev);
  const minStation = stations.reduce((prev, curr) => Number(curr.forecasted) < Number(prev.forecasted) ? curr : prev);
  const fastestStation = stations.reduce((prev, current) => Number(current.trend) > Number(prev.trend) ? current : prev);
  summary = { max, max_station: maxStation?.station_name || "", ... };
}
```
-/

/-- `Number(x.toFixed(2))`: round half up at two decimals. -/
def round2 (x : ℚ) : ℚ := ((⌊x * 100 + 1/2⌋ : ℤ) : ℚ) / 100

structure StationRow where
  station_name : String
  forecasted : ℚ
  trend : ℚ
deriving DecidableEq

structure Summary where
  max : ℚ
  max_station : String
  min : ℚ
  min_station : String
  avg : ℚ
  danger_count : Nat
  fastest_increasing_station : String
  fastest_increasing_trend : ℚ
deriving DecidableEq

/-- `Math.max(...l)` for a non-empty list (0 for the empty list, which
the `stations.length > 0` guard makes unreachable). -/
def listMax : List ℚ → ℚ
  | [] => 0
  | x :: xs => xs.foldl max x

/-- `Math.min(...l)` for a non-empty list. -/
def listMin : List ℚ → ℚ
  | [] => 0
  | x :: xs => xs.foldl min x

/-- The station summary computed by the `/home-summary` handler; a total
function — the empty list takes the zero-valued sentinel branch instead
of raising. -/
def summarize : List StationRow → Summary
  | [] => ⟨0, "", 0, "", 0, 0, "", 0⟩
  | s :: rest =>
      let stations := s :: rest
      let forecasts := stations.map StationRow.forecasted
      let maxStation := rest.foldl
        (fun prev curr => if curr.forecasted > prev.forecasted then curr else prev) s
      let minStation := rest.foldl
        (fun prev curr => if curr.forecasted < prev.forecasted then curr else prev) s
      let fastest := rest.foldl
        (fun prev curr => if curr.trend > prev.trend then curr else prev) s
      ⟨round2 (listMax forecasts), maxStation.station_name,
       round2 (listMin forecasts), minStation.station_name,
       round2 ((forecasts.foldl (· + ·) 0) / (forecasts.length : ℚ)),
       (stations.filter (fun st => st.forecasted ≥ 41)).length,
       fastest.station_name, round2 fastest.trend⟩

/-- C6: on an empty station list `summarize` returns the zero-valued
sentinel (empty station names, all numeric fields 0); being a total
function of the list, it raises no exception. -/
theorem summarize_empty : summarize [] = ⟨0, "", 0, "", 0, 0, "", 0⟩ := rfl

/-- C7: the documented scenario: stations A(40, 1.1), B(45, -2.1),
C(45, 0.5) give max 45 at "B" (first of the tied stations in input
order, not "C"), min 40 at "A", avg 43.33, dangerCount 2 (threshold
41), fastest station "A" with trend 1.1. -/
theorem summarize_scenario :
    summarize [⟨"A", 40, 11/10⟩, ⟨"B", 45, -21/10⟩, ⟨"C", 45, 1/2⟩]
      = ⟨45, "B", 40, "A", 4333/100, 2, "A", 11/10⟩ := by
  simp only [summarize, listMax, listMin, List.map, List.foldl, List.filter]
  norm_num [round2, Summary.mk.injEq, Int.floor_eq_iff]

theorem listMax_spec (x : ℚ) (xs : List ℚ) :
    listMax (x :: xs) ∈ (x :: xs) ∧ ∀ y ∈ (x :: xs), y ≤ listMax (x :: xs) := by
  induction xs generalizing x with
  | nil => exact ⟨List.mem_singleton.mpr rfl, fun y hy => le_of_eq (List.mem_singleton.mp hy)⟩
  | cons a as ih =>
      have h := ih (max x a)
      simp only [listMax] at h ⊢
      rw [List.foldl_cons]
      have hmaxF : max x a ≤ List.foldl max (max x a) as := h.2 _ (List.mem_cons_self _ _)
      constructor
      · rcases List.mem_cons.mp h.1 with hm | hm
        · rcases max_choice x a with hc | hc
          · rw [hm.trans hc]
            exact List.mem_cons_self _ _
          · rw [hm.trans hc]
            exact List.mem_cons_of_mem _ (List.mem_cons_self _ _)
        · exact List.mem_cons_of_mem _ (List.mem_cons_of_mem _ hm)
      · intro y hy
        rcases List.mem_cons.mp hy with rfl | hy2
        · exact le_trans (le_max_left y a) hmaxF
        · rcases List.mem_cons.mp hy2 with rfl | hy3
          · exact le_trans (le_max_right x y) hmaxF
          · exact h.2 y (List.mem_cons_of_mem _ hy3)

theorem listMin_spec (x : ℚ) (xs : List ℚ) :
    listMin (x :: xs) ∈ (x :: xs) ∧ ∀ y ∈ (x :: xs), listMin (x :: xs) ≤ y := by
  induction xs generalizing x with
  | nil => exact ⟨List.mem_singleton.mpr rfl, fun y hy => le_of_eq (List.mem_singleton.mp hy).symm⟩
  | cons a as ih =>
      have h := ih (min x a)
      simp only [listMin] at h ⊢
      rw [List.foldl_cons]
      have hminF : List.foldl min (min x a) as ≤ min x a := h.2 _ (List.mem_cons_self _ _)
      constructor
      · rcases List.mem_cons.mp h.1 with hm | hm
        · rcases min_choice x a with hc | hc
          · rw [hm.trans hc]
            exact List.mem_cons_self _ _
          · rw [hm.trans hc]
            exact List.mem_cons_of_mem _ (List.mem_cons_self _ _)
        · exact List.mem_cons_of_mem _ (List.mem_cons_of_mem _ hm)
      · intro y hy
        rcases List.mem_cons.mp hy with rfl | hy2
        · exact le_trans hminF (min_le_left y a)
        · rcases List.mem_cons.mp hy2 with rfl | hy3
          · exact le_trans hminF (min_le_right x y)
          · exact h.2 y (List.mem_cons_of_mem _ hy3)

/-- C9: on any non-empty station list, the summary's `max` and `min`
are the numeric maximum and minimum of the stations' `forecasted`
values, each rounded to two decimals. -/
theorem summarize_extrema (s : StationRow) (rest : List StationRow) :
    ∃ M m : ℚ,
      M ∈ (s :: rest).map StationRow.forecasted ∧
      (∀ y ∈ (s :: rest).map StationRow.forecasted, y ≤ M) ∧
      m ∈ (s :: rest).map StationRow.forecasted ∧
      (∀ y ∈ (s :: rest).map StationRow.forecasted, m ≤ y) ∧
      (summarize (s :: rest)).max = round2 M ∧
      (summarize (s :: rest)).min = round2 m := by
  refine ⟨listMax ((s :: rest).map StationRow.forecasted),
          listMin ((s :: rest).map StationRow.forecasted), ?_, ?_, ?_, ?_, rfl, rfl⟩
  · exact (listMax_spec _ _).1
  · exact (listMax_spec _ _).2
  · exact (listMin_spec _ _).1
  · exact (listMin_spec _ _).2

theorem summarize_extrema_witness :
    ∃ M m : ℚ,
      M ∈ ([⟨"A", 40, 1⟩, ⟨"B", 45, 2⟩] : List StationRow).map StationRow.forecasted ∧
      (∀ y ∈ ([⟨"A", 40, 1⟩, ⟨"B", 45, 2⟩] : List StationRow).map StationRow.forecasted, y ≤ M) ∧
      m ∈ ([⟨"A", 40, 1⟩, ⟨"B", 45, 2⟩] : List StationRow).map StationRow.forecasted ∧
      (∀ y ∈ ([⟨"A", 40, 1⟩, ⟨"B", 45, 2⟩] : List StationRow).map StationRow.forecasted, m ≤ y) ∧
      (summarize [⟨"A", 40, 1⟩, ⟨"B", 45, 2⟩]).max = round2 M ∧
      (summarize [⟨"A", 40, 1⟩, ⟨"B", 45, 2⟩]).min = round2 m :=
  summarize_extrema ⟨"A", 40, 1⟩ [⟨"B", 45, 2⟩]

/-!
### Aggregation helpers — synoptic classification formatting
Embedded from the `/home-summary` and `/stations-table` handlers of
`src/server/src/routes/homeData.ts`:

```ts
const colorMap = { 'Caution': '#FFD700', 'Extreme Caution': '#FFA500',
  'Danger': '#FF4500', 'Extreme Danger': '#8B0000' };
const sortOrder = { 'Caution': 1, 'Extreme Caution': 2, 'Danger': 3, 'Extreme Danger': 4 };
const formatted = result.rows
  .map(row => ({ name: row.name, value: row.value ? Number(row.value) : 0,
                 color: colorMap[row.name] || '#999999' }))
  .sort((a, b) => (sortOrder[a.name] || 999) - (sortOrder[b.name] || 999));
```

`Array.prototype.sort` is stable, so the sort is modelled by a stable
insertion sort on the rank `sortOrder[name] || 999`.
-/

structure SynRow where
  name : String
  value : Option ℚ
deriving DecidableEq

structure Colored where
  name : String
  value : ℚ
  color : String
deriving DecidableEq

def colorMap (name : String) : Option String :=
  if name = "Caution" then some "#FFD700"
  else if name = "Extreme Caution" then some "#FFA500"
  else if name = "Danger" then some "#FF4500"
  else if name = "Extreme Danger" then some "#8B0000"
  else none

def sortOrder (name : String) : Option Nat :=
  if name = "Caution" then some 1
  else if name = "Extreme Caution" then some 2
  else if name = "Danger" then some 3
  else if name = "Extreme Danger" then some 4
  else none

/-- `sortOrder[name] || 999`. -/
def rankOf (name : String) : Nat := (sortOrder name).getD 999

/-- `colorMap[name] || '#999999'`. -/
def colorOf (name : String) : String := (colorMap name).getD "#999999"

/-- The `.map` step: fixed color, `null` count read as 0. -/
def colorRow (r : SynRow) : Colored := ⟨r.name, r.value.getD 0, colorOf r.name⟩

/-- Stable insertion: place `x` after every element whose rank does not
exceed its own. -/
def insertRank (x : Colored) : List Colored → List Colored
  | [] => [x]
  | y :: ys => if rankOf y.name ≤ rankOf x.name then y :: insertRank x ys else x :: y :: ys

/-- Stable insertion sort by rank (model of the stable JS `sort`). -/
def sortByRank (l : List Colored) : List Colored :=
  l.foldl (fun acc x => insertRank x acc) []

def classifyAndColor (rows : List SynRow) : List Colored :=
  sortByRank (rows.map colorRow)

theorem insertRank_perm (x : Colored) (l : List Colored) :
    (insertRank x l).Perm (x :: l) := by
  induction l with
  | nil => exact List.Perm.refl _
  | cons y ys ih =>
      unfold insertRank
      by_cases h : rankOf y.name ≤ rankOf x.name
      · rw [if_pos h]
        exact ((ih.cons y).trans (List.Perm.swap x y ys))
      · rw [if_neg h]

theorem sortByRank_foldl_perm (l : List Colored) :
    ∀ acc : List Colored,
      (l.foldl (fun acc x => insertRank x acc) acc).Perm (acc ++ l) := by
  induction l with
  | nil => intro acc; simp
  | cons x xs ih =>
      intro acc
      rw [List.foldl_cons]
      refine ((ih (insertRank x acc)).trans ?_)
      refine (((insertRank_perm x acc).append_right xs).trans ?_)
      exact List.perm_middle.symm

theorem insertRank_pairwise (x : Colored) (l : List Colored)
    (h : l.Pairwise (fun a b => rankOf a.name ≤ rankOf b.name)) :
    (insertRank x l).Pairwise (fun a b => rankOf a.name ≤ rankOf b.name) := by
  induction l with
  | nil => simp [insertRank]
  | cons y ys ih =>
      rw [List.pairwise_cons] at h
      unfold insertRank
      by_cases hle : rankOf y.name ≤ rankOf x.name
      · rw [if_pos hle]
        rw [List.pairwise_cons]
        refine ⟨?_, ih h.2⟩
        intro z hz
        have hz2 : z ∈ x :: ys := ((insertRank_perm x ys).mem_iff).mp hz
        rcases List.mem_cons.mp hz2 with rfl | hz3
        · exact hle
        · exact h.1 z hz3
      · rw [if_neg hle]
        rw [List.pairwise_cons]
        refine ⟨?_, List.pairwise_cons.mpr h⟩
        intro z hz
        have hxy : rankOf x.name ≤ rankOf y.name := le_of_not_le hle
        rcases List.mem_cons.mp hz with rfl | hz3
        · exact hxy
        · exact le_trans hxy (h.1 z hz3)

theorem sortByRank_foldl_pairwise (l : List Colored) :
    ∀ acc : List Colored,
      acc.Pairwise (fun a b => rankOf a.name ≤ rankOf b.name) →
      (l.foldl (fun acc x => insertRank x acc) acc).Pairwise
        (fun a b => rankOf a.name ≤ rankOf b.name) := by
  induction l with
  | nil => intro acc h; exact h
  | cons x xs ih =>
      intro acc h
      rw [List.foldl_cons]
      exact ih _ (insertRank_pairwise x acc h)

theorem colorOf_cases (nm : String) :
    colorOf nm = (if nm = "Caution" then "#FFD700"
      else if nm = "Extreme Caution" then "#FFA500"
      else if nm = "Danger" then "#FF4500"
      else if nm = "Extreme Danger" then "#8B0000"
      else "#999999") := by
  unfold colorOf colorMap
  split_ifs <;> rfl

theorem rank_bound (nm : String) : sortOrder nm = none ∨ rankOf nm ≤ 4 := by
  unfold rankOf sortOrder
  split_ifs <;> simp

/-- C8: `classifyAndColor` returns a permutation of the color-annotated
rows, ordered by the fixed severity ranking (Caution, Extreme Caution,
Danger, Extreme Danger), every row colored from the fixed 4-entry map
with unknown names gray `#999999`, and every row with an unranked name
placed after all ranked rows. -/
theorem classifyAndColor_spec (rows : List SynRow) :
    (classifyAndColor rows).Perm (rows.map colorRow) ∧
    (classifyAndColor rows).Pairwise (fun a b => rankOf a.name ≤ rankOf b.name) ∧
    (∀ e ∈ classifyAndColor rows,
      e.color = (if e.name = "Caution" then "#FFD700"
        else if e.name = "Extreme Caution" then "#FFA500"
        else if e.name = "Danger" then "#FF4500"
        else if e.name = "Extreme Danger" then "#8B0000"
        else "#999999")) ∧
    (∀ i j : Nat, ∀ hi : i < (classifyAndColor rows).length,
      ∀ hj : j < (classifyAndColor rows).length, i < j →
      sortOrder ((classifyAndColor rows).get ⟨i, hi⟩).name = none →
      sortOrder ((classifyAndColor rows).get ⟨j, hj⟩).name = none) := by
  have hperm : (classifyAndColor rows).Perm (rows.map colorRow) := by
    unfold classifyAndColor sortByRank
    have h := sortByRank_foldl_perm (rows.map colorRow) []
    simpa using h
  have hpair : (classifyAndColor rows).Pairwise
      (fun a b => rankOf a.name ≤ rankOf b.name) := by
    unfold classifyAndColor sortByRank
    exact sortByRank_foldl_pairwise (rows.map colorRow) [] (List.Pairwise.nil)
  refine ⟨hperm, hpair, ?_, ?_⟩
  · intro e he
    have he2 : e ∈ rows.map colorRow := hperm.mem_iff.mp he
    rw [List.mem_map] at he2
    obtain ⟨r, _, rfl⟩ := he2
    exact colorOf_cases r.name
  · intro i j hi hj hij hnone
    have hR := (List.pairwise_iff_get.mp hpair) ⟨i, hi⟩ ⟨j, hj⟩ hij
    rcases rank_bound ((classifyAndColor rows).get ⟨j, hj⟩).name with h | h
    · exact h
    · exfalso
      have : rankOf ((classifyAndColor rows).get ⟨i, hi⟩).name = 999 := by
        unfold rankOf
        rw [hnone]
        rfl
      omega

theorem classifyAndColor_spec_witness :
    (classifyAndColor [⟨"Extreme Danger", some 7⟩, ⟨"Mystery", some 5⟩, ⟨"Caution", none⟩]).Perm
      (([⟨"Extreme Danger", some 7⟩, ⟨"Mystery", some 5⟩, ⟨"Caution", none⟩] : List SynRow).map
        colorRow) ∧
    (classifyAndColor [⟨"Extreme Danger", some 7⟩, ⟨"Mystery", some 5⟩,
        ⟨"Caution", none⟩]).Pairwise (fun a b => rankOf a.name ≤ rankOf b.name) ∧
    (∀ e ∈ classifyAndColor [⟨"Extreme Danger", some 7⟩, ⟨"Mystery", some 5⟩,
        ⟨"Caution", none⟩],
      e.color = (if e.name = "Caution" then "#FFD700"
        else if e.name = "Extreme Caution" then "#FFA500"
        else if e.name = "Danger" then "#FF4500"
        else if e.name = "Extreme Danger" then "#8B0000"
        else "#999999")) ∧
    (∀ i j : Nat,
      ∀ hi : i < (classifyAndColor [⟨"Extreme Danger", some 7⟩, ⟨"Mystery", some 5⟩,
          ⟨"Caution", none⟩]).length,
      ∀ hj : j < (classifyAndColor [⟨"Extreme Danger", some 7⟩, ⟨"Mystery", some 5⟩,
          ⟨"Caution", none⟩]).length, i < j →
      sortOrder ((classifyAndColor [⟨"Extreme Danger", some 7⟩, ⟨"Mystery", some 5⟩,
          ⟨"Caution", none⟩]).get ⟨i, hi⟩).name = none →
      sortOrder ((classifyAndColor [⟨"Extreme Danger", some 7⟩, ⟨"Mystery", some 5⟩,
          ⟨"Caution", none⟩]).get ⟨j, hj⟩).name = none) :=
  classifyAndColor_spec [⟨"Extreme Danger", some 7⟩, ⟨"Mystery", some 5⟩, ⟨"Caution", none⟩]

end AlabPh
